import Mathlib

/-!
Verification of the single-file disk-persisted cache (Go package `cache`,
file `cache.go`) against its natural-language specification.

Shallow embedding notes.

* The file system is modelled as a map from identifiers to optional file
  contents (`FS`).  Every operation of the package touches exactly the path
  `path.Join(Location, c.Identifier)` for a fixed global `Location`, so files
  are keyed by identifier; the constant `Location` prefix is elided.
* File contents are byte lists.  Bytes are `Nat`; the 4-byte header written by
  `Set` uses genuine little-endian bytes (`le32`), mirroring
  `binary.LittleEndian.PutUint32` / `Uint32` including the `uint32` truncation
  of the buffer length.
* `time.Time` values and `time.Duration` are modelled as integers;
  `t.Before(u)` is `t < u`; `time.Now().Add(d)` is `now + d` with the call
  time `now` passed explicitly to each operation.
* `encoding/gob` is library code, not part of this repository.  The metadata
  record (`Cache`, exported fields `Identifier`, `Expire`, `Expiry`; the
  unexported `lock` is skipped by gob) is encoded by the executable stand-in
  `encMeta` / `decMeta`, which is faithful to the gob struct protocol in the
  aspects the claims depend on: encoding is deterministic, a field holding the
  zero value of its type (empty string, `false`, zero time) is omitted from
  the stream, and decoding into an existing value overwrites exactly the
  fields present in the stream (`applyMeta`), leaving omitted fields at their
  prior value.  The payload (`*[]T`) encoding is an abstract codec
  (`GobCodec`) with the documented gob guarantee that decoding an encoded
  value yields it back.
* `os.File.Read` on a regular file is modelled by `readAt`: a read of `n > 0`
  bytes at an offset at or past end of file fails (`io.EOF`); otherwise it
  returns the available bytes zero-padded to the buffer size without error
  (Go zero-fills fresh buffers and a partial read of an available suffix
  returns no error); a read into an empty buffer never fails.
* OS-level failure of `os.OpenFile` is modelled by the explicit `openErr`
  flag; seeks on a regular file cannot fail and are not given a flag.
* The mutex field serialises calls on one handle; the model is sequential, so
  it has no observable content and is omitted.
-/

namespace GoCache

/-- In-memory cache handle of `cache.go` (`type Cache[T any] struct`):
exported fields `Identifier`, `Expire`, `Expiry`; the unexported mutex is
omitted (sequential model). -/
structure Cache where
  Identifier : String
  Expire : Bool
  Expiry : Int
  deriving DecidableEq, Repr

/-- The file system: contents of `path.Join(Location, id)` for each
identifier `id`, or `none` when the file does not exist. -/
def FS : Type := String → Option (List Nat)

/-- Pointwise file-system update (create, overwrite or remove one file). -/
def fsUpd (fs : FS) (k : String) (v : Option (List Nat)) : FS :=
  fun s => if s = k then v else fs s

/-- The empty file system (no file exists). -/
def fsEmpty : FS := fun _ => none

/-- The 4 little-endian bytes of a 32-bit value, as written by
`binary.LittleEndian.PutUint32` (only `n % 2 ^ 32` is representable). -/
def le32 (n : Nat) : List Nat :=
  [n % 256, n / 256 % 256, n / 65536 % 256, n / 16777216 % 256]

/-- `binary.LittleEndian.Uint32` on a 4-byte buffer. -/
def fromLE32 (l : List Nat) : Nat :=
  match l with
  | [a, b, c, d] => a + 256 * b + 65536 * c + 16777216 * d
  | _ => 0

/-- Zero-pad a list on the right to length `n` (a Go read buffer is
zero-initialised and a partial read leaves the tail zero). -/
def padTo (n : Nat) (l : List Nat) : List Nat :=
  l ++ List.replicate (n - l.length) 0

/-- One `file.Read` call of an `n`-byte buffer at offset `off` of a regular
file with contents `v`: `none` models an `io.EOF` error (nothing available
and `n > 0`); otherwise the filled buffer is returned (available bytes,
zero-padded — a short read of a non-empty suffix returns no error in Go). -/
def readAt (v : List Nat) (off n : Nat) : Option (List Nat) :=
  if n = 0 then some []
  else if v.length ≤ off then none
  else some (padTo n ((v.drop off).take n))

/-- Stand-in gob encoding of a `String` field value (length, then the code
points; injective and executable, which is all the development uses). -/
def encStr (s : String) : List Nat :=
  s.length :: s.data.map Char.toNat

/-- Decoder matching `encStr`; returns the value and the remaining stream. -/
def decStr (v : List Nat) : Option (String × List Nat) :=
  match v with
  | [] => none
  | n :: rest =>
    if rest.length < n then none
    else some (String.mk ((rest.take n).map Char.ofNat), rest.drop n)

/-- Stand-in gob encoding of a time value (sign, then magnitude). -/
def encInt (i : Int) : List Nat :=
  [if i < 0 then 1 else 0, i.natAbs]

/-- Decoder matching `encInt`; returns the value and the remaining stream. -/
def decInt (v : List Nat) : Option (Int × List Nat) :=
  match v with
  | s :: m :: rest => some (if s = 1 then -(m : Int) else (m : Int), rest)
  | _ => none

/-- The fields of one decoded metadata record: `none` marks a field that was
omitted from the gob stream (gob omits fields holding the zero value of
their type). -/
structure MetaFields where
  identifier : Option String
  expire : Option Bool
  expiry : Option Int

/-- Gob encoding of the metadata record (`gob.NewEncoder(cb).Encode(c)`):
a presence byte followed by the encodings of exactly the fields whose value
is not the zero value of its type, in declaration order.  A `false` `Expire`,
an empty `Identifier` and a zero `Expiry` are omitted, per the gob struct
protocol. -/
def encMeta (c : Cache) : List Nat :=
  ((if c.Identifier = "" then 0 else 1) +
   (if c.Expire then 2 else 0) +
   (if c.Expiry = 0 then 0 else 4)) ::
    ((if c.Identifier = "" then [] else encStr c.Identifier) ++
     (if c.Expiry = 0 then [] else encInt c.Expiry))

/-- Gob decoding of a metadata stream: reads the presence byte and then the
encodings of the fields it announces; trailing bytes are ignored (gob stops
after one value). -/
def decMeta (v : List Nat) : Option MetaFields :=
  match v with
  | [] => none
  | flag :: r0 =>
    if 8 ≤ flag then none
    else
      match (if flag % 2 = 1
             then (decStr r0).map (fun p => (some p.1, p.2))
             else some (none, r0)) with
      | none => none
      | some (idF, r1) =>
        match (if flag / 4 = 1
               then (decInt r1).map (fun p => (some p.1, p.2))
               else some (none, r1)) with
        | none => none
        | some (expiryF, _r2) =>
          some ⟨idF, if flag / 2 % 2 = 1 then some true else none, expiryF⟩

/-- Gob decode-into semantics (`gob.NewDecoder(cbytes).Decode(c)`): every
field present in the stream overwrites the corresponding field of the
existing value; omitted fields keep their prior value. -/
def applyMeta (e : MetaFields) (c : Cache) : Cache :=
  ⟨e.identifier.getD c.Identifier, e.expire.getD c.Expire, e.expiry.getD c.Expiry⟩

/-- Abstract gob payload codec for the item slice `*[]T`, carrying the
documented gob guarantee that decoding an encoded value yields it back. -/
structure GobCodec (T : Type) where
  enc : List T → List Nat
  dec : List Nat → Option (List T)
  dec_enc : ∀ xs, dec (enc xs) = some xs

/-- A concrete payload codec (used to instantiate witnesses). -/
def natGob : GobCodec Nat where
  enc := fun xs => xs
  dec := fun v => some v
  dec_enc := fun _ => rfl

/-- A file system holding one corrupt cache file for identifier `"a"`: a
valid 4-byte header announcing one metadata byte, followed by one byte that
is not a decodable metadata stream. -/
def corruptFS : FS := fsUpd fsEmpty "a" (some (le32 1 ++ [8]))

/-- Outcome labels for the branches of `New`; `seekFail` of line 53 of the
source is unreachable for a regular file and has no label. -/
inductive NewOutcome where
  | openFail | headerEOF | metaEOF | decodeFail | loaded
  deriving DecidableEq, Repr

/-- Result labels of `Set`. -/
inductive SetResult where
  | ok | openFail
  deriving DecidableEq, Repr

/-- Outcome labels for the branches of `Get`. -/
inductive GetOutcome (T : Type) where
  | expired | openFail | headerFail | decodeFail | ok (items : List T)
  deriving DecidableEq, Repr

/-- `New` of `cache.go` (lines 28-69), with its branch labelled.  Builds the
default handle (`Expire = (expiry != 0)`, `Expiry = now + expiry`), opens the
backing file with `O_CREATE` (creating an empty file when absent), tries the
4-byte header, then the `hlen` metadata bytes, and gob-decodes them into the
handle; an unreadable header or unreadable metadata yields the fresh default
handle, a failed open or a failed decode yields `none` (Go `nil`). -/
def NewR (id : String) (expiry : Int) (now : Int) (openErr : Bool) (fs : FS) :
    Option Cache × FS × NewOutcome :=
  let c : Cache := ⟨id, expiry != 0, now + expiry⟩
  if openErr then (none, fs, NewOutcome.openFail)
  else
    let fs1 := if fs id = none then fsUpd fs id (some []) else fs
    let v := (fs1 id).getD []
    match readAt v 0 4 with
    | none => (some c, fs1, NewOutcome.headerEOF)
    | some hb =>
      let hlen := fromLE32 hb
      match readAt v 4 hlen with
      | none => (some c, fs1, NewOutcome.metaEOF)
      | some cb =>
        match decMeta cb with
        | none => (none, fs1, NewOutcome.decodeFail)
        | some e => (some (applyMeta e c), fs1, NewOutcome.loaded)

/-- `New` as the caller sees it: the returned handle (or `nil`) and the file
system after the call. -/
def New (id : String) (expiry : Int) (now : Int) (openErr : Bool) (fs : FS) :
    Option Cache × FS :=
  ((NewR id expiry now openErr fs).1, (NewR id expiry now openErr fs).2.1)

/-- `Set` of `cache.go` (lines 74-124).  Gob-encodes the metadata into a
buffer `cb` (which cannot fail for this record type), truncates the file and
writes: the 4-byte little-endian header `uint32(cb.Len())`, the metadata
bytes (`file.ReadFrom(cb)`, which drains `cb`, so the following relative
`Seek(cb.Len(), 1)` moves by zero), then the gob-encoded items.  The first
component is the receiver at return: no statement of `Set` assigns to any
field of `c`. -/
def Set {T : Type} (c : Cache) (codec : GobCodec T) (items : List T)
    (openErr : Bool) (fs : FS) : Cache × FS × SetResult :=
  let cb := encMeta c
  let hl := cb.length % 2 ^ 32
  let hlb := le32 hl
  if openErr then (c, fs, SetResult.openFail)
  else (c, fsUpd fs c.Identifier (some (hlb ++ cb ++ codec.enc items)), SetResult.ok)

/-- `Get` of `cache.go` (lines 131-169), with its branch labelled.  Checks
expiry first (`c.Expiry.Before(now) && c.Expire`) and on expiry removes the
backing file; otherwise opens the file with `O_CREATE` (creating an empty
file when absent), reads the 4-byte header, seeks to `4 + offset` and
gob-decodes the remaining bytes as the item slice.  The first component is
the receiver at return: no statement of `Get` assigns to any field of `c`. -/
def GetR {T : Type} (c : Cache) (codec : GobCodec T) (now : Int)
    (openErr : Bool) (fs : FS) : Cache × FS × GetOutcome T :=
  if c.Expiry < now ∧ c.Expire = true then
    (c, fsUpd fs c.Identifier none, GetOutcome.expired)
  else if openErr then (c, fs, GetOutcome.openFail)
  else
    let fs1 := if fs c.Identifier = none then fsUpd fs c.Identifier (some []) else fs
    let v := (fs1 c.Identifier).getD []
    match readAt v 0 4 with
    | none => (c, fs1, GetOutcome.headerFail)
    | some hb =>
      let offset := fromLE32 hb
      match codec.dec (v.drop (4 + offset)) with
      | none => (c, fs1, GetOutcome.decodeFail)
      | some xs => (c, fs1, GetOutcome.ok xs)

/-- `Get` as the caller sees it: every non-`ok` branch returns Go `nil`,
modelled as `none`. -/
def Get {T : Type} (c : Cache) (codec : GobCodec T) (now : Int)
    (openErr : Bool) (fs : FS) : Cache × FS × Option (List T) :=
  match GetR c codec now openErr fs with
  | (c2, fs2, GetOutcome.ok xs) => (c2, fs2, some xs)
  | (c2, fs2, _) => (c2, fs2, none)

/-- Whether a `Get` branch is the success branch. -/
def GetOutcome.isOk {T : Type} : GetOutcome T → Bool
  | GetOutcome.ok _ => true
  | _ => false

/-! ### Helper lemmas about the byte-level functions -/

theorem le32_length (n : Nat) : (le32 n).length = 4 := rfl

theorem fromLE32_le32 (n : Nat) : fromLE32 (le32 n) = n % 2 ^ 32 := by
  have h : (2 : Nat) ^ 32 = 4294967296 := by norm_num
  simp only [le32, fromLE32, h]
  omega

theorem le32_mod (n : Nat) : le32 (n % 2 ^ 32) = le32 n := by
  have h : (2 : Nat) ^ 32 = 4294967296 := by norm_num
  simp only [le32, h, List.cons.injEq, and_true]
  refine ⟨?_, ?_, ?_, ?_⟩ <;> omega

theorem le32_mod' (n : Nat) : le32 (n % 4294967296) = le32 n := by
  have h : (4294967296 : Nat) = 2 ^ 32 := by norm_num
  rw [h, le32_mod]

theorem padTo_of_length {n : Nat} {l : List Nat} (h : l.length = n) :
    padTo n l = l := by
  simp [padTo, h]

theorem readAt_zero_four (v : List Nat) (h : 4 ≤ v.length) :
    readAt v 0 4 = some (v.take 4) := by
  have h0 : ¬ v.length ≤ 0 := by omega
  have h4 : (v.take 4).length = 4 := by
    simp only [List.length_take]
    omega
  simp only [readAt, if_neg (by omega : ¬ (4 : Nat) = 0), if_neg h0,
    List.drop_zero, padTo_of_length h4]

theorem take_four_of_le32_append (L : Nat) (rest : List Nat) :
    (le32 L ++ rest).take 4 = le32 L :=
  List.take_left' (le32_length L)

theorem decStr_encStr (s : String) (rest : List Nat) :
    decStr (encStr s ++ rest) = some (s, rest) := by
  have hml : (s.data.map Char.toNat).length = s.length := by
    rw [List.length_map]
    rfl
  have h1 : ¬ (s.data.map Char.toNat ++ rest).length < s.length := by
    simp only [List.length_append, hml]
    omega
  have h4 : (s.data.map Char.toNat).map Char.ofNat = s.data := by
    rw [List.map_map]
    exact List.map_id'' (fun ch => Char.ofNat_toNat ch) s.data
  simp only [encStr, List.cons_append, decStr, if_neg h1,
    List.take_left' hml, List.drop_left' hml, h4]

theorem decStr_encStr_nil (s : String) : decStr (encStr s) = some (s, []) := by
  have h := decStr_encStr s []
  rwa [List.append_nil] at h

theorem decInt_encInt (i : Int) (rest : List Nat) :
    decInt (encInt i ++ rest) = some (i, rest) := by
  by_cases hi : i < 0
  · simp only [encInt, if_pos hi, List.cons_append, List.nil_append, decInt,
      if_pos rfl, Option.some.injEq, Prod.mk.injEq, and_true]
    show -(i.natAbs : Int) = i
    omega
  · simp only [encInt, if_neg hi, List.cons_append, List.nil_append, decInt,
      if_neg (by omega : ¬ (0 : Nat) = 1), Option.some.injEq, Prod.mk.injEq,
      and_true]
    show (i.natAbs : Int) = i
    omega

theorem decInt_encInt_nil (i : Int) : decInt (encInt i) = some (i, []) := by
  have h := decInt_encInt i []
  rwa [List.append_nil] at h

/-- Decoding a freshly encoded metadata record recovers exactly the
non-zero-valued fields; zero-valued fields (empty identifier, `false`
expire flag, zero expiry time) come back as omitted. -/
theorem decMeta_encMeta (c : Cache) :
    decMeta (encMeta c) =
      some ⟨(if c.Identifier = "" then none else some c.Identifier),
            (if c.Expire then some true else none),
            (if c.Expiry = 0 then none else some c.Expiry)⟩ := by
  by_cases h1 : c.Identifier = "" <;>
    by_cases h2 : c.Expire = true <;>
      by_cases h3 : c.Expiry = 0 <;>
        simp_all [encMeta, decMeta, decStr_encStr, decStr_encStr_nil,
          decInt_encInt, decInt_encInt_nil]

theorem encMeta_ne_nil (c : Cache) : (encMeta c).length ≠ 0 := by
  simp [encMeta]

/-! ### Helper lemmas about the three operations -/

theorem set_eq {T : Type} (c : Cache) (codec : GobCodec T) (items : List T)
    (fs : FS) :
    Set c codec items false fs =
      (c,
       fsUpd fs c.Identifier
         (some (le32 ((encMeta c).length % 2 ^ 32) ++ encMeta c ++ codec.enc items)),
       SetResult.ok) := rfl

theorem set_cache {T : Type} (c : Cache) (codec : GobCodec T) (items : List T)
    (openErr : Bool) (fs : FS) : (Set c codec items openErr fs).1 = c := by
  unfold Set
  split <;> rfl

theorem getR_cache {T : Type} (c : Cache) (codec : GobCodec T) (now : Int)
    (openErr : Bool) (fs : FS) : (GetR c codec now openErr fs).1 = c := by
  unfold GetR
  split
  · rfl
  · split
    · rfl
    · dsimp only
      split
      · rfl
      · split <;> rfl

theorem get_getR {T : Type} (c : Cache) (codec : GobCodec T) (now : Int)
    (openErr : Bool) (fs : FS) :
    (Get c codec now openErr fs).1 = (GetR c codec now openErr fs).1 ∧
    (Get c codec now openErr fs).2.1 = (GetR c codec now openErr fs).2.1 := by
  unfold Get
  rcases GetR c codec now openErr fs with ⟨c2, fs2, r⟩
  cases r <;> exact ⟨rfl, rfl⟩

theorem getR_expired {T : Type} (c : Cache) (codec : GobCodec T) (now : Int)
    (openErr : Bool) (fs : FS) (h : c.Expiry < now ∧ c.Expire = true) :
    GetR c codec now openErr fs =
      (c, fsUpd fs c.Identifier none, GetOutcome.expired) := by
  simp [GetR, h]

/-- The file system after any `Get`, by case analysis on every branch. -/
theorem getR_fs {T : Type} (c : Cache) (codec : GobCodec T) (now : Int)
    (openErr : Bool) (fs : FS) :
    (GetR c codec now openErr fs).2.1 =
      if c.Expiry < now ∧ c.Expire = true then fsUpd fs c.Identifier none
      else if openErr = true then fs
      else if fs c.Identifier = none then fsUpd fs c.Identifier (some [])
      else fs := by
  unfold GetR
  split
  · rfl
  · split
    · rfl
    · by_cases h3 : fs c.Identifier = none
      · rw [if_pos h3]
        dsimp only
        split
        · rfl
        · split <;> rfl
      · rw [if_neg h3]
        dsimp only
        split
        · rfl
        · split <;> rfl

theorem getR_layout {T : Type} (c : Cache) (codec : GobCodec T) (now : Int)
    (fs : FS) (L : Nat) (meta payload : List Nat) (xs : List T)
    (hexp : ¬ (c.Expiry < now ∧ c.Expire = true))
    (hfs : fs c.Identifier = some (le32 L ++ meta ++ payload))
    (hm : meta.length = L) (hL : L < 2 ^ 32)
    (hp : codec.dec payload = some xs) :
    GetR c codec now false fs = (c, fs, GetOutcome.ok xs) := by
  have hlen4 : 4 ≤ ((le32 L ++ meta) ++ payload).length := by
    simp [le32_length]
  have hr : readAt ((le32 L ++ meta) ++ payload) 0 4 = some (le32 L) := by
    rw [readAt_zero_four _ hlen4, List.append_assoc, take_four_of_le32_append]
  have hdrop : ((le32 L ++ meta) ++ payload).drop (4 + L) = payload :=
    List.drop_left' (by simp [le32_length, hm])
  have hfrom : fromLE32 (le32 L) = L := by
    rw [fromLE32_le32]
    exact Nat.mod_eq_of_lt hL
  have hnone : ¬ fs c.Identifier = none := by
    rw [hfs]
    exact Option.some_ne_none _
  unfold GetR
  rw [if_neg hexp]
  simp only [Bool.false_eq_true, if_false]
  rw [if_neg hnone, hfs]
  simp only [Option.getD_some, hr, hfrom, hdrop, hp]

theorem newR_fresh (id : String) (d t : Int) (fs : FS)
    (h : fs id = none ∨ fs id = some []) :
    NewR id d t false fs =
      (some ⟨id, d != 0, t + d⟩,
       (if fs id = none then fsUpd fs id (some []) else fs),
       NewOutcome.headerEOF) := by
  unfold NewR
  rcases h with h | h
  · simp [h, fsUpd, readAt]
  · simp [h, readAt]

theorem newR_layout (id : String) (d t : Int) (fs : FS)
    (L : Nat) (meta payload : List Nat) (e : MetaFields)
    (hfs : fs id = some (le32 L ++ meta ++ payload))
    (hm : meta.length = L) (hL : L < 2 ^ 32) (hne : L ≠ 0)
    (hd : decMeta meta = some e) :
    NewR id d t false fs =
      (some (applyMeta e ⟨id, d != 0, t + d⟩), fs, NewOutcome.loaded) := by
  have hlen4 : 4 ≤ ((le32 L ++ meta) ++ payload).length := by
    simp [le32_length]
  have hr : readAt ((le32 L ++ meta) ++ payload) 0 4 = some (le32 L) := by
    rw [readAt_zero_four _ hlen4, List.append_assoc, take_four_of_le32_append]
  have hfrom : fromLE32 (le32 L) = L := by
    rw [fromLE32_le32]
    exact Nat.mod_eq_of_lt hL
  have hdrop4 : ((le32 L ++ meta) ++ payload).drop 4 = meta ++ payload := by
    rw [List.append_assoc]
    exact List.drop_left' (le32_length L)
  have hgt : ¬ ((le32 L ++ meta) ++ payload).length ≤ 4 := by
    simp only [List.length_append, le32_length, hm]
    omega
  have hr2 : readAt ((le32 L ++ meta) ++ payload) 4 L = some meta := by
    unfold readAt
    rw [if_neg hne, if_neg hgt, hdrop4, List.take_left' hm, padTo_of_length hm]
  have hnone : ¬ fs id = none := by
    rw [hfs]
    exact Option.some_ne_none _
  unfold NewR
  simp only [Bool.false_eq_true, if_false]
  rw [if_neg hnone, hfs]
  simp only [Option.getD_some, hr, hfrom, hr2, hd]

/-- A `Get` right after a `Set` through the same non-expired handle succeeds
with exactly the saved items. -/
theorem get_after_set {T : Type} (c : Cache) (codec : GobCodec T)
    (items : List T) (fs : FS) (t : Int)
    (hlen : (encMeta c).length < 2 ^ 32)
    (hexp : ¬ (c.Expiry < t ∧ c.Expire = true)) :
    Get c codec t false (Set c codec items false fs).2.1 =
      (c, (Set c codec items false fs).2.1, some items) := by
  have hfs : (Set c codec items false fs).2.1 c.Identifier
      = some (le32 (encMeta c).length ++ encMeta c ++ codec.enc items) := by
    rw [set_eq]
    simp [fsUpd, le32_mod, le32_mod']
  have hget := getR_layout c codec t (Set c codec items false fs).2.1
    (encMeta c).length (encMeta c) (codec.enc items) items hexp hfs rfl hlen
    (codec.dec_enc items)
  simp only [Get, hget]

/-! ### Claim theorems -/

/-- C1: round-trip.  For every identifier, duration, payload codec and item
sequence, `Open(id, d); Save(items); Load()` on an identifier whose backing
file does not yet exist (or is still empty, so that `Open` yields the fresh
default metadata) returns a sequence equal to `items`, provided the metadata
record fits the 4-byte header and `d` is zero or large enough that the expiry
time does not pass before the `Load` happens at time `t2`. -/
theorem roundtrip_open_save_load {T : Type} (codec : GobCodec T) (id : String)
    (d : Int) (items : List T) (fs : FS) (t0 t2 : Int)
    (hfresh : fs id = none ∨ fs id = some [])
    (hlen : (encMeta (Cache.mk id (d != 0) (t0 + d))).length < 2 ^ 32)
    (hd : d = 0 ∨ t2 ≤ t0 + d) :
    ∃ c : Cache, (New id d t0 false fs).1 = some c ∧
      (Set c codec items false (New id d t0 false fs).2).2.2 = SetResult.ok ∧
      (Get c codec t2 false
        (Set c codec items false (New id d t0 false fs).2).2.1).2.2
        = some items := by
  have hnew := newR_fresh id d t0 fs hfresh
  have hexp : ¬ ((Cache.mk id (d != 0) (t0 + d)).Expiry < t2 ∧
      (Cache.mk id (d != 0) (t0 + d)).Expire = true) := by
    rcases hd with hd | hd
    · subst hd
      intro h
      have h2 : ((0 : Int) != 0) = true := h.2
      exact absurd h2 (by decide)
    · intro h
      have h1 : t0 + d < t2 := h.1
      omega
  refine ⟨Cache.mk id (d != 0) (t0 + d), ?_, ?_, ?_⟩
  · simp only [New, hnew]
  · simp only [New, hnew, set_eq]
  · have h := get_after_set (Cache.mk id (d != 0) (t0 + d)) codec items
      (if fs id = none then fsUpd fs id (some []) else fs) t2 hlen hexp
    simp only [New, hnew]
    rw [h]

/-- C1 witness: concrete round-trip on a fresh identifier with duration 0. -/
theorem roundtrip_open_save_load_witness :
    (fsEmpty "k" = none ∨ fsEmpty "k" = some []) ∧
    ((encMeta (Cache.mk "k" ((0 : Int) != 0) (7 + 0))).length < 2 ^ 32) ∧
    ((0 : Int) = 0 ∨ (9 : Int) ≤ 7 + 0) ∧
    (∃ c : Cache, (New "k" 0 7 false fsEmpty).1 = some c ∧
      (Set c natGob [3, 1, 4] false (New "k" 0 7 false fsEmpty).2).2.2
        = SetResult.ok ∧
      (Get c natGob 9 false
        (Set c natGob [3, 1, 4] false (New "k" 0 7 false fsEmpty).2).2.1).2.2
        = some [3, 1, 4]) :=
  ⟨Or.inl rfl, by decide, Or.inl rfl,
   roundtrip_open_save_load natGob "k" 0 [3, 1, 4] fsEmpty 7 9 (Or.inl rfl)
     (by decide) (Or.inl rfl)⟩

/-- C2: layout invariant.  After every successful `Save`, the file holds: its
first 4 bytes are the little-endian header whose value is exactly the byte
length `L` of the metadata block that immediately follows them, and the
payload block begins exactly at offset `4 + L` with no gap or extra
header. -/
theorem save_layout_invariant {T : Type} (c : Cache) (codec : GobCodec T)
    (items : List T) (fs : FS)
    (hlen : (encMeta c).length < 2 ^ 32) :
    ∃ contents : List Nat,
      (Set c codec items false fs).2.1 c.Identifier = some contents ∧
      (Set c codec items false fs).2.2 = SetResult.ok ∧
      contents.take 4 = le32 (encMeta c).length ∧
      fromLE32 (contents.take 4) = (encMeta c).length ∧
      (contents.drop 4).take (encMeta c).length = encMeta c ∧
      contents.drop (4 + (encMeta c).length) = codec.enc items := by
  refine ⟨le32 (encMeta c).length ++ encMeta c ++ codec.enc items,
    ?_, rfl, ?_, ?_, ?_, ?_⟩
  · rw [set_eq]
    simp [fsUpd, le32_mod, le32_mod']
  · rw [List.append_assoc]
    exact take_four_of_le32_append _ _
  · rw [List.append_assoc, take_four_of_le32_append, fromLE32_le32]
    exact Nat.mod_eq_of_lt hlen
  · rw [List.append_assoc, List.drop_left' (le32_length _), List.take_left' rfl]
  · exact List.drop_left' (by simp [le32_length])

/-- C2 witness: the layout invariant at a concrete handle and payload. -/
theorem save_layout_invariant_witness :
    ((encMeta (Cache.mk "a" false 5)).length < 2 ^ 32) ∧
    (∃ contents : List Nat,
      (Set (Cache.mk "a" false 5) natGob [2, 7] false fsEmpty).2.1 "a"
        = some contents ∧
      (Set (Cache.mk "a" false 5) natGob [2, 7] false fsEmpty).2.2
        = SetResult.ok ∧
      contents.take 4 = le32 (encMeta (Cache.mk "a" false 5)).length ∧
      fromLE32 (contents.take 4) = (encMeta (Cache.mk "a" false 5)).length ∧
      (contents.drop 4).take (encMeta (Cache.mk "a" false 5)).length
        = encMeta (Cache.mk "a" false 5) ∧
      contents.drop (4 + (encMeta (Cache.mk "a" false 5)).length)
        = natGob.enc [2, 7]) :=
  ⟨by decide, save_layout_invariant (Cache.mk "a" false 5) natGob [2, 7]
    fsEmpty (by decide)⟩

/-- C3: overwrite, not merge.  On the same handle, `Save(A); Save(B); Load()`
returns exactly `B`: the second `Save` fully replaces the prior file contents
and never merges with or accumulates onto the earlier payload (hypotheses:
the handle is not expired at the `Load`, and its metadata record fits the
header). -/
theorem save_save_load_returns_last {T : Type} (c : Cache)
    (codec : GobCodec T) (A B : List T) (fs : FS) (t : Int)
    (hlen : (encMeta c).length < 2 ^ 32)
    (hexp : ¬ (c.Expiry < t ∧ c.Expire = true)) :
    (Get c codec t false
      (Set c codec B false (Set c codec A false fs).2.1).2.1).2.2 = some B := by
  rw [get_after_set c codec B (Set c codec A false fs).2.1 t hlen hexp]

/-- C3 witness: concrete double save returning the second payload only. -/
theorem save_save_load_returns_last_witness :
    ((encMeta (Cache.mk "a" false 0)).length < 2 ^ 32) ∧
    (¬ ((Cache.mk "a" false 0).Expiry < 3 ∧ (Cache.mk "a" false 0).Expire = true)) ∧
    (Get (Cache.mk "a" false 0) natGob 3 false
      (Set (Cache.mk "a" false 0) natGob [9] false
        (Set (Cache.mk "a" false 0) natGob [1, 2] false fsEmpty).2.1).2.1).2.2
      = some [9] :=
  ⟨by decide, by decide,
   save_save_load_returns_last (Cache.mk "a" false 0) natGob [1, 2] [9]
     fsEmpty 3 (by decide) (by decide)⟩

/-- C4 counterexample: the claim as stated is false.  Save a handle whose
metadata is `{Identifier := "a", Expire := false, Expiry := 5}` (as built by a
zero duration), then `Open("a", 1)` at time `10`.  The claim says the
persisted `expire_enabled = false` wins over the passed duration, so the
resulting handle would have `Expire = false`; the code yields `Expire = true`,
because gob omits the zero-valued `Expire` field from the stream and the
decode leaves the freshly built default (`1 != 0`, i.e. `true`) in place. -/
theorem open_meta_overwrite_cex :
    (Cache.mk "a" false 5).Expire = false ∧
    (New "a" 1 10 false
        (Set (Cache.mk "a" false 5) natGob [] false fsEmpty).2.1).1
      = some (Cache.mk "a" true 5) := by decide

/-- C4 (amended): when a later `Open` on the same identifier reads the file a
previous `Save` wrote, the gob-decoded metadata overwrites exactly those
freshly built default fields whose persisted value is not the zero value of
its type: a non-empty identifier always comes back, a persisted `true` expire
flag and a persisted non-zero expiry time win over the defaults, while
zero-valued persisted fields — in particular `expire_enabled = false` saved
by a zero duration, and a zero expiry time — are omitted from the serialized
block, so the freshly built defaults derived from the caller-passed duration
survive for them. -/
theorem open_after_save_meta {T : Type} (cS : Cache) (codec : GobCodec T)
    (items : List T) (fs : FS) (d2 t2 : Int)
    (hlen : (encMeta cS).length < 2 ^ 32) :
    (New cS.Identifier d2 t2 false (Set cS codec items false fs).2.1).1 =
      some (Cache.mk cS.Identifier
        (if cS.Expire = true then true else (d2 != 0))
        (if cS.Expiry = 0 then t2 + d2 else cS.Expiry)) := by
  have hfs : (Set cS codec items false fs).2.1 cS.Identifier
      = some (le32 (encMeta cS).length ++ encMeta cS ++ codec.enc items) := by
    rw [set_eq]
    simp [fsUpd, le32_mod, le32_mod']
  have hnew := newR_layout cS.Identifier d2 t2 (Set cS codec items false fs).2.1
    (encMeta cS).length (encMeta cS) (codec.enc items) _ hfs rfl hlen
    (encMeta_ne_nil cS) (decMeta_encMeta cS)
  simp only [New, hnew, Option.some.injEq]
  unfold applyMeta
  by_cases h1 : cS.Identifier = "" <;> by_cases h2 : cS.Expire = true <;>
    by_cases h3 : cS.Expiry = 0 <;>
      simp_all

/-- C4 witness for the amended theorem: the concrete scenario of the
counterexample, now matching the amended statement: the persisted non-zero
expiry (5) wins, the omitted `false` expire flag does not, so the fresh
default `true` survives. -/
theorem open_after_save_meta_witness :
    ((encMeta (Cache.mk "a" false 5)).length < 2 ^ 32) ∧
    (New "a" 1 10 false
        (Set (Cache.mk "a" false 5) natGob [] false fsEmpty).2.1).1
      = some (Cache.mk "a"
          (if (Cache.mk "a" false 5).Expire = true then true else ((1 : Int) != 0))
          (if (Cache.mk "a" false 5).Expiry = 0 then 10 + 1
           else (Cache.mk "a" false 5).Expiry)) :=
  ⟨by decide,
   open_after_save_meta (Cache.mk "a" false 5) natGob [] fsEmpty 1 10 (by decide)⟩

/-- C5: silent absent.  Whenever `Get` does not take its success branch — the
handle is expired, the file cannot be opened, the header read fails, or the
payload fails to gob-decode — the caller-visible result is uniformly the one
absent value `nil`; no failure mode is distinguishable from any other or from
an empty cache. -/
theorem load_silent_absent {T : Type} (c : Cache) (codec : GobCodec T)
    (now : Int) (openErr : Bool) (fs : FS)
    (h : ((GetR c codec now openErr fs).2.2).isOk = false) :
    (Get c codec now openErr fs).2.2 = none := by
  rcases hr : GetR c codec now openErr fs with ⟨c2, fs2, r⟩
  rw [hr] at h
  unfold Get
  rw [hr]
  cases r <;> simp_all [GetOutcome.isOk]

/-- C5 witness: a failing `Load` (header read fails on an empty file) returns
the absent value. -/
theorem load_silent_absent_witness :
    ((GetR (Cache.mk "a" false 0) natGob 0 false fsEmpty).2.2).isOk = false ∧
    (Get (Cache.mk "a" false 0) natGob 0 false fsEmpty).2.2 = none :=
  ⟨by decide,
   load_silent_absent (Cache.mk "a" false 0) natGob 0 false fsEmpty (by decide)⟩

/-- C6: expiry-triggered deletion.  When the expire flag is set and the
expiry time is strictly before the call time, `Get` takes the expiry branch:
it removes the backing file and reports absent without reading or returning
any payload (even if one existed).  Otherwise `Get` never deletes the file:
an existing file still holds the same contents after the call. -/
theorem load_expiry_deletion {T : Type} (c : Cache) (codec : GobCodec T)
    (now : Int) (openErr : Bool) (fs : FS) :
    (c.Expire = true ∧ c.Expiry < now →
      (GetR c codec now openErr fs).2.2 = GetOutcome.expired ∧
      (Get c codec now openErr fs).2.1 c.Identifier = none ∧
      (Get c codec now openErr fs).2.2 = none) ∧
    (¬ (c.Expire = true ∧ c.Expiry < now) →
      ∀ v : List Nat, fs c.Identifier = some v →
        (Get c codec now openErr fs).2.1 c.Identifier = some v) := by
  constructor
  · intro h
    have hc : c.Expiry < now ∧ c.Expire = true := ⟨h.2, h.1⟩
    have hg := getR_expired c codec now openErr fs hc
    refine ⟨by rw [hg], ?_, ?_⟩
    · rw [(get_getR c codec now openErr fs).2, hg]
      simp [fsUpd]
    · simp [Get, hg]
  · intro hn v hv
    have hc : ¬ (c.Expiry < now ∧ c.Expire = true) := fun hh => hn ⟨hh.2, hh.1⟩
    rw [(get_getR c codec now openErr fs).2, getR_fs, if_neg hc]
    by_cases ho : openErr = true
    · rw [if_pos ho]
      exact hv
    · rw [if_neg ho, if_neg (by rw [hv]; exact Option.some_ne_none _)]
      exact hv

/-- C6 witness: an expired handle deletes a populated file and reports
absent; a non-expired handle leaves an existing file intact. -/
theorem load_expiry_deletion_witness :
    ((Cache.mk "a" true 5).Expire = true ∧ (Cache.mk "a" true 5).Expiry < 10) ∧
    (GetR (Cache.mk "a" true 5) natGob 10 false
      (fsUpd fsEmpty "a" (some [1, 2]))).2.2 = GetOutcome.expired ∧
    (Get (Cache.mk "a" true 5) natGob 10 false
      (fsUpd fsEmpty "a" (some [1, 2]))).2.1 "a" = none ∧
    (Get (Cache.mk "a" true 5) natGob 10 false
      (fsUpd fsEmpty "a" (some [1, 2]))).2.2 = none ∧
    (¬ ((Cache.mk "b" false 0).Expire = true ∧ (Cache.mk "b" false 0).Expiry < 0)) ∧
    (Get (Cache.mk "b" false 0) natGob 0 false
      (fsUpd fsEmpty "b" (some [1, 2]))).2.1 "b" = some [1, 2] := by
  have h1 := (load_expiry_deletion (Cache.mk "a" true 5) natGob 10 false
    (fsUpd fsEmpty "a" (some [1, 2]))).1 (by decide)
  have h2 := (load_expiry_deletion (Cache.mk "b" false 0) natGob 0 false
    (fsUpd fsEmpty "b" (some [1, 2]))).2 (by decide) [1, 2] (by decide)
  exact ⟨by decide, h1.1, h1.2.1, h1.2.2, by decide, h2⟩

/-- C7 counterexample: the claim as stated is false.  A `Load` through a
non-expired handle on an identifier whose backing file does not exist does
not leave the file system unchanged: the open uses `O_CREATE`, so an empty
backing file exists afterwards. -/
theorem load_creates_file_cex :
    (Cache.mk "a" false 0).Expire = false ∧
    fsEmpty "a" = none ∧
    (Get (Cache.mk "a" false 0) natGob 0 false fsEmpty).2.1 "a" = some [] := by
  decide

/-- C7 (amended): the file-system effect of `Load` is exactly: on detected
expiry the backing file is removed; otherwise, when the backing file does not
exist (and the open succeeds), the `O_CREATE` open creates it empty; in every
other case — including every success — the file system is unchanged, and
`Load` never modifies the contents of an existing file. -/
theorem load_frame {T : Type} (c : Cache) (codec : GobCodec T) (now : Int)
    (openErr : Bool) (fs : FS) :
    (Get c codec now openErr fs).2.1 =
      if c.Expiry < now ∧ c.Expire = true then fsUpd fs c.Identifier none
      else if openErr = true then fs
      else if fs c.Identifier = none then fsUpd fs c.Identifier (some [])
      else fs := by
  rw [(get_getR c codec now openErr fs).2]
  exact getR_fs c codec now openErr fs

/-- C8 counterexample: the claim as stated is false.  The two failure modes
of `Open` are not distinguishable: an OS-level open failure and a corrupt
metadata block (readable header, undecodable metadata bytes) take different
internal branches but both return the same bare `nil`; the caller receives
no distinct `StorageUnavailable` / `CorruptMetadata` signals. -/
theorem open_failures_cex :
    (NewR "a" 0 0 true fsEmpty).2.2 = NewOutcome.openFail ∧
    (NewR "a" 0 0 false corruptFS).2.2 = NewOutcome.decodeFail ∧
    (New "a" 0 0 true fsEmpty).1 = none ∧
    (New "a" 0 0 false corruptFS).1 = none ∧
    (New "a" 0 0 true fsEmpty).1 = (New "a" 0 0 false corruptFS).1 := by
  decide

/-- C8 (amended): `Open` has a single undifferentiated failure value: it
returns `nil` both when the backing file cannot be opened or created and when
a present metadata block fails to gob-decode; when the file is empty (the
header read hits end of file) or the metadata bytes cannot be read, it
succeeds with the freshly built default metadata. -/
theorem open_failure_modes (id : String) (d t : Int) (fs : FS) :
    ((NewR id d t true fs).1 = none) ∧
    ((NewR id d t false fs).2.2 = NewOutcome.decodeFail →
      (NewR id d t false fs).1 = none) ∧
    ((NewR id d t false fs).2.2 = NewOutcome.headerEOF →
      (NewR id d t false fs).1 = some (Cache.mk id (d != 0) (t + d))) ∧
    ((NewR id d t false fs).2.2 = NewOutcome.metaEOF →
      (NewR id d t false fs).1 = some (Cache.mk id (d != 0) (t + d))) := by
  refine ⟨by simp [NewR], ?_, ?_, ?_⟩ <;>
    · unfold NewR
      simp only [Bool.false_eq_true, if_false]
      split
      · simp
      · split
        · simp
        · split <;> simp

/-- C8 witness for the amended theorem: every conjunct exercised at a
concrete input — open failure, corrupt metadata, empty file, and a file with
a header but unreadable metadata bytes. -/
theorem open_failure_modes_witness :
    ((NewR "a" 0 0 true fsEmpty).1 = none) ∧
    ((NewR "a" 0 0 false corruptFS).2.2 = NewOutcome.decodeFail ∧
      (NewR "a" 0 0 false corruptFS).1 = none) ∧
    ((NewR "a" 0 0 false fsEmpty).2.2 = NewOutcome.headerEOF ∧
      (NewR "a" 0 0 false fsEmpty).1
        = some (Cache.mk "a" (((0 : Int)) != 0) (0 + 0))) ∧
    ((NewR "a" 0 0 false (fsUpd fsEmpty "a" (some [1, 0, 0, 0]))).2.2
        = NewOutcome.metaEOF ∧
      (NewR "a" 0 0 false (fsUpd fsEmpty "a" (some [1, 0, 0, 0]))).1
        = some (Cache.mk "a" (((0 : Int)) != 0) (0 + 0))) :=
  ⟨(open_failure_modes "a" 0 0 fsEmpty).1,
   ⟨by decide, (open_failure_modes "a" 0 0 corruptFS).2.1 (by decide)⟩,
   ⟨by decide, (open_failure_modes "a" 0 0 fsEmpty).2.2.1 (by decide)⟩,
   ⟨by decide, (open_failure_modes "a" 0 0
      (fsUpd fsEmpty "a" (some [1, 0, 0, 0]))).2.2.2 (by decide)⟩⟩

/-- C9: neither `Save` nor `Get` modifies the in-memory handle: the
`Identifier`, `Expire` and `Expiry` fields of the receiver are the same
before and after either call, on every path — success or failure (no
statement of either method assigns to a field of `c`). -/
theorem handle_fields_unchanged {T : Type} (c : Cache) (codec : GobCodec T)
    (items : List T) (now : Int) (openErr : Bool) (fs : FS) :
    ((Set c codec items openErr fs).1.Identifier = c.Identifier ∧
     (Set c codec items openErr fs).1.Expire = c.Expire ∧
     (Set c codec items openErr fs).1.Expiry = c.Expiry) ∧
    ((Get c codec now openErr fs).1.Identifier = c.Identifier ∧
     (Get c codec now openErr fs).1.Expire = c.Expire ∧
     (Get c codec now openErr fs).1.Expiry = c.Expiry) := by
  have hs := set_cache c codec items openErr fs
  have hg : (Get c codec now openErr fs).1 = c := by
    rw [(get_getR c codec now openErr fs).1, getR_cache]
  rw [hs, hg]
  exact ⟨⟨rfl, rfl, rfl⟩, rfl, rfl, rfl⟩

/-- C10: a strictly negative duration passed to `Open` on a fresh identifier
builds a handle with the expire flag set and an expiry time already in the
past, so the first subsequent `Load` deletes the backing file and returns
absent without ever returning a payload. -/
theorem negative_duration_first_load {T : Type} (codec : GobCodec T)
    (id : String) (d t0 t1 : Int) (fs : FS)
    (hfresh : fs id = none) (hd : d < 0) (ht : t0 ≤ t1) :
    ∃ c : Cache, (New id d t0 false fs).1 = some c ∧
      c.Expire = true ∧ c.Expiry < t0 ∧
      (Get c codec t1 false (New id d t0 false fs).2).2.1 id = none ∧
      (Get c codec t1 false (New id d t0 false fs).2).2.2 = none := by
  have hnew := newR_fresh id d t0 fs (Or.inl hfresh)
  have hexpire : ((d != 0) : Bool) = true := by
    rw [bne_iff_ne]
    omega
  have hexp : (Cache.mk id (d != 0) (t0 + d)).Expiry < t1 ∧
      (Cache.mk id (d != 0) (t0 + d)).Expire = true := by
    refine ⟨?_, hexpire⟩
    show t0 + d < t1
    omega
  have hg := getR_expired (Cache.mk id (d != 0) (t0 + d)) codec t1 false
    (New id d t0 false fs).2 hexp
  refine ⟨Cache.mk id (d != 0) (t0 + d), ?_, hexpire, ?_, ?_, ?_⟩
  · simp only [New, hnew]
  · show t0 + d < t0
    omega
  · rw [(get_getR _ codec t1 false _).2, hg]
    simp [fsUpd]
  · simp [Get, hg]

/-- C10 witness: concrete negative duration on a fresh identifier. -/
theorem negative_duration_first_load_witness :
    (fsEmpty "a" = none ∧ (-3 : Int) < 0 ∧ (0 : Int) ≤ 0) ∧
    (∃ c : Cache, (New "a" (-3) 0 false fsEmpty).1 = some c ∧
      c.Expire = true ∧ c.Expiry < 0 ∧
      (Get c natGob 0 false (New "a" (-3) 0 false fsEmpty).2).2.1 "a" = none ∧
      (Get c natGob 0 false (New "a" (-3) 0 false fsEmpty).2).2.2 = none) :=
  ⟨⟨rfl, by decide, by decide⟩,
   negative_duration_first_load natGob "a" (-3) 0 0 fsEmpty rfl (by decide)
     (by decide)⟩

end GoCache
